import Mathlib

/-!
Verification of the LevelDB scanner in `chromium_profile_cli/leveldb.py`.

Bytes are modelled as `Nat` (values < 256 on real inputs), byte strings as
`List Nat`, and streams as explicit list consumption.  Python exceptions are
modelled by explicit error types; fallible functions return pairs with an
`Option` error or `Except`.  Recursive loops that are not structurally
recursive use a fuel parameter; every call site supplies fuel that provably
dominates the number of iterations, so the fuel-exhaustion base case is
unreachable there.
-/

deriving instance DecidableEq for Except

/-- Unsigned little-endian value of a byte list (first byte least significant),
as computed by `struct.unpack` with formats `<H`, `<I`, `<Q`. -/
def leNum (bs : List Nat) : Nat :=
  bs.foldr (fun b acc => acc * 256 + b) 0

/-- Signed 32-bit little-endian value (`struct.unpack "<i"`). -/
def leInt32 (bs : List Nat) : Int :=
  let u := leNum bs
  if u < 2 ^ 31 then (u : Int) else (u : Int) - 2 ^ 32

/-- Clamp a Python slice index to a list of length `n`: negative indices count
from the end; out-of-range indices clamp to `[0, n]`. -/
def pyIndexClamp (n : Nat) (i : Int) : Nat :=
  if i < 0 then (i + n).toNat else min i.toNat n

/-- Python slice `l[a:b]` with integer (possibly negative) bounds. -/
def pySlice (l : List Nat) (a b : Int) : List Nat :=
  (l.take (pyIndexClamp l.length b)).drop (pyIndexClamp l.length a)

/-- Python sequence repetition `l * k`. -/
def pyRepeat (l : List Nat) (k : Nat) : List Nat :=
  (List.replicate k l).flatten

/-- First `len` bytes of the unbounded (cyclic) repetition of `pattern`.
This is the specification-side statement of Snappy run-length copy semantics. -/
def cyclicTake (pattern : List Nat) (len : Nat) : List Nat :=
  (List.range len).map (fun i => pattern.getD (i % pattern.length) 0)

/-!
## Varint codec (`_read_le_varint`, leveldb.py lines 30-42)

`readLeVarint limit32 s` returns the decoded value (`none` models Python's
`None` return at end of input) together with the number of bytes consumed
from the stream.
-/

/-- Loop body of `_read_le_varint`: `fuel` counts the remaining iterations of
`for i in range(limit)`, `i` is the current iteration index, `acc` the
accumulated result.  Returns (value, bytes consumed). -/
def readLeVarintAux : Nat → Nat → Nat → List Nat → Option Nat × Nat
  | 0, _, acc, _ => (some acc, 0)
  | _ + 1, _, _, [] => (none, 0)
  | fuel + 1, i, acc, b :: rest =>
    let acc2 := acc ||| ((b &&& 0x7F) <<< (i * 7))
    if b &&& 0x80 = 0 then (some acc2, 1)
    else
      let r := readLeVarintAux fuel (i + 1) acc2 rest
      (r.1, r.2 + 1)

/-- Model of `_read_le_varint(stream, is_google_32bit=...)`: limit 5 when
`isGoogle32bit` is true, otherwise 10. -/
def readLeVarint (isGoogle32bit : Bool) (s : List Nat) : Option Nat × Nat :=
  readLeVarintAux (if isGoogle32bit then 5 else 10) 0 0 s

/-!
## Snappy decompressor (`_snappy_decompress`, leveldb.py lines 45-98)
-/

def _SNAPPY_LITERAL : Nat := 0
def _SNAPPY_COPY_1BYTE : Nat := 1
def _SNAPPY_COPY_2BYTE : Nat := 2
def _SNAPPY_COPY_4BYTE : Nat := 3

/-- Errors of the Snappy decompressor.  The first three model the explicit
`ValueError`s raised in `_snappy_decompress`; `shortRead` models the
`IndexError` / `struct.error` raised when a length-extension or copy-header
read comes up short (`data.read(k)` followed by indexing or `struct.unpack`). -/
inductive SnappyError
  | truncatedLiteral
  | zeroOffset
  | lengthMismatch
  | shortRead
deriving DecidableEq

/-- Copy-element append (leveldb.py lines 89-93): slice the already-written
output at `src_pos = len(out) - offset`, and when `offset <= length` repeat
the slice to `length` bytes. -/
def snappyCopy (out : List Nat) (offset length : Nat) : List Nat :=
  let srcPos : Int := (out.length : Int) - (offset : Int)
  let buf := pySlice out srcPos (srcPos + (length : Int))
  if offset ≤ length then (pyRepeat buf length).take length else buf

/-- Main loop of `_snappy_decompress` (lines 50-93): consume tag-prefixed
elements until end of input.  `fuel` bounds the iteration count; every
iteration consumes at least the tag byte, so fuel `s.length` suffices and the
fuel-0 case (returning the output so far, like end of input) is unreachable
at the call site in `snappyDecompress`. -/
def snappyLoopAux : Nat → List Nat → List Nat → Except SnappyError (List Nat)
  | 0, out, _ => .ok out
  | _ + 1, out, [] => .ok out
  | fuel + 1, out, tagByte :: rest =>
    let tag := tagByte &&& 0x03
    if tag = _SNAPPY_LITERAL then
      let sizeMarker := (tagByte &&& 0xFC) >>> 2
      let extra := if sizeMarker < 60 then 0 else sizeMarker - 59
      if rest.length < extra then .error .shortRead
      else
        let length := if sizeMarker < 60 then 1 + sizeMarker else 1 + leNum (rest.take extra)
        let rest1 := rest.drop extra
        if rest1.length < length then .error .truncatedLiteral
        else snappyLoopAux fuel (out ++ rest1.take length) (rest1.drop length)
    else
      let hdrLen := if tag = _SNAPPY_COPY_1BYTE then 1 else if tag = _SNAPPY_COPY_2BYTE then 2 else 4
      if rest.length < hdrLen then .error .shortRead
      else
        let length :=
          if tag = _SNAPPY_COPY_1BYTE then ((tagByte &&& 0x1C) >>> 2) + 4
          else 1 + ((tagByte &&& 0xFC) >>> 2)
        let offset :=
          if tag = _SNAPPY_COPY_1BYTE then ((tagByte &&& 0xE0) <<< 3) ||| rest.headD 0
          else leNum (rest.take hdrLen)
        if offset = 0 then .error .zeroOffset
        else snappyLoopAux fuel (out ++ snappyCopy out offset length) (rest.drop hdrLen)

/-- Model of `_snappy_decompress`: read the declared length as a 64-bit
varint, run the element loop, and compare the produced length with the
declared one (`None != len(result)` also fails the comparison in Python). -/
def snappyDecompress (s : List Nat) : Except SnappyError (List Nat) :=
  let v := readLeVarint false s
  let body := s.drop v.2
  match snappyLoopAux body.length [] body with
  | .error e => .error e
  | .ok result => if v.1 = some result.length then .ok result else .error .lengthMismatch

/-!
## LevelDB record types (leveldb.py lines 105-127)
-/

/-- Model of `KeyState`. -/
inductive KeyState
  | Deleted
  | Live
  | Unknown
deriving DecidableEq

/-- Model of `Record`.  `fromLdb` mirrors the `_from_ldb` field. -/
structure Record where
  key : List Nat
  value : List Nat
  seq : Nat
  state : KeyState
  fromLdb : Bool
deriving DecidableEq

/-- Model of the `Record.user_key` property. -/
def Record.userKey (r : Record) : List Nat :=
  if r.fromLdb ∧ 8 ≤ r.key.length then r.key.take (r.key.length - 8) else r.key

/-!
## Table files (`_iter_table_file` and friends, leveldb.py lines 134-209)
-/

def _BLOCK_TRAILER_SIZE : Nat := 5
def _TABLE_FOOTER_SIZE : Nat := 48
def _TABLE_MAGIC : Nat := 0xDB4775248B80FB57

/-- Errors of the table-file reader.  `structError` models `struct.error`
(unpacking a short buffer), `badSeek` the `ValueError`/`OSError` from a
negative seek, `indexErr` the `IndexError` from `trailer[0]` on an empty
read, `typeErr` the `TypeError` from using a `None` varint as a seek/read
argument, `badMagic` the explicit `ValueError` for a magic mismatch. -/
inductive TableErr
  | structError
  | badSeek
  | indexErr
  | typeErr
  | badMagic
  | snappy (e : SnappyError)
deriving DecidableEq

/-- Entry loop of `_iter_block_entries` (lines 161-168).  `raw` is the block
buffer, `raOff` the restart-array offset (a Python int, possibly negative),
`key` the previous reconstructed key and `p` the cursor (`buf.tell()`).
Reads three 32-bit varints (shared, non-shared, value length), then the
non-shared key suffix and the value; a `None` varint makes the slice
`key[:None]` keep the whole key and makes `buf.read(None)` read to the end.
Each iteration consumes at least one byte, so fuel `raw.length` suffices. -/
def iterBlockEntriesAux (raw : List Nat) (raOff : Int) :
    Nat → List Nat → Nat → List (List Nat × List Nat)
  | 0, _, _ => []
  | fuel + 1, key, p =>
    if (p : Int) < raOff then
      let r1 := readLeVarint true (raw.drop p)
      let p1 := p + r1.2
      let r2 := readLeVarint true (raw.drop p1)
      let p2 := p1 + r2.2
      let r3 := readLeVarint true (raw.drop p2)
      let p3 := p2 + r3.2
      let keyHead := match r1.1 with
        | some sharedLen => key.take sharedLen
        | none => key
      let nsRead := match r2.1 with
        | some nonSharedLen => (raw.drop p3).take nonSharedLen
        | none => raw.drop p3
      let p4 := p3 + nsRead.length
      let key2 := keyHead ++ nsRead
      let vRead := match r3.1 with
        | some valueLen => (raw.drop p4).take valueLen
        | none => raw.drop p4
      let p5 := p4 + vRead.length
      (key2, vRead) :: iterBlockEntriesAux raw raOff fuel key2 p5
    else []

/-- Model of `_iter_block_entries` (lines 146-168): decode the restart count
from the last four bytes, locate the restart array, read the first-entry
offset as a signed 32-bit integer, then iterate entries.  The `Option
TableErr` component records the exception the Python generator would raise
(always before its first yield). -/
def iterBlockEntries (raw : List Nat) : List (List Nat × List Nat) × Option TableErr :=
  let n := raw.length
  if n < 4 then ([], some .structError)
  else
    let restartCount := leNum (raw.drop (n - 4))
    let raOff : Int := (n : Int) - ((restartCount : Int) + 1) * 4
    let feSlice := pySlice raw raOff (raOff + 4)
    if feSlice.length ≠ 4 then ([], some .structError)
    else
      let firstEntryOffset := leInt32 feSlice
      if firstEntryOffset < 0 then ([], some .badSeek)
      else (iterBlockEntriesAux raw raOff n [] firstEntryOffset.toNat, none)

/-- Record synthesis for one table entry (lines 205-209): `seq` from the
little-endian value of `key[-8:]` shifted right 8 (raising `struct.error`
when `key[-8:]` is shorter than 8 bytes), tombstone tag from `key[-8]`,
`Unknown` when the key is at most 8 bytes long. -/
def recordFromTableEntry (key value : List Nat) : Except TableErr Record :=
  let tail := key.drop (key.length - 8)
  if tail.length = 8 then
    let seq := leNum tail >>> 8
    let state := if 8 < key.length ∧ key.getD (key.length - 8) 0 = 0
      then KeyState.Deleted else KeyState.Live
    let state := if key.length ≤ 8 then KeyState.Unknown else state
    .ok ⟨key, value, seq, state, true⟩
  else .error .structError

/-- Synthesize records from a block's entries, stopping at the first
`struct.error` (which aborts the whole table file in Python). -/
def tableRecordsFromEntries : List (List Nat × List Nat) → List Record × Option TableErr
  | [] => ([], none)
  | (k, v) :: rest =>
    match recordFromTableEntry k v with
    | .error e => ([], some e)
    | .ok r =>
      let t := tableRecordsFromEntries rest
      (r :: t.1, t.2)

/-- Model of the inner `read_block` closure (lines 184-191): read `length`
payload bytes at `offset` plus a 5-byte trailer; `trailer[0]` raises
`IndexError` when the trailer read is empty; a nonzero compression type runs
the Snappy decompressor over the payload. -/
def readBlock (file : List Nat) (offset length : Nat) : Except TableErr (List Nat) :=
  let blockData := (file.drop offset).take length
  let trailer := (file.drop (offset + length)).take _BLOCK_TRAILER_SIZE
  match trailer with
  | [] => .error .indexErr
  | t0 :: _ =>
    if t0 ≠ 0 then
      match snappyDecompress blockData with
      | .ok d => .ok d
      | .error e => .error (.snappy e)
    else .ok blockData

/-- Iterate the data blocks referenced by the index entries (lines 198-209):
decode each handle (two varints over the index value), fetch the block,
decode its entries and synthesize records.  Any error aborts the remainder
of the file; records already yielded are kept. -/
def dataBlocksLoop (file : List Nat) : List (List Nat × List Nat) → List Record × Option TableErr
  | [] => ([], none)
  | (_, handleBytes) :: rest =>
    let h1 := readLeVarint false handleBytes
    let h2 := readLeVarint false (handleBytes.drop h1.2)
    match h1.1, h2.1 with
    | some bOff, some bLen =>
      (match readBlock file bOff bLen with
      | .error e => ([], some e)
      | .ok blockData =>
        let be := iterBlockEntries blockData
        match be.2 with
        | some e => ([], some e)
        | none =>
          let tr := tableRecordsFromEntries be.1
          match tr.2 with
          | some e => (tr.1, some e)
          | none =>
            let t := dataBlocksLoop file rest
            (tr.1 ++ t.1, t.2))
    | _, _ => ([], some .typeErr)

/-- Model of `_iter_table_file` (lines 171-209): parse the 48-byte footer
(two block handles as four varints), check the trailing magic, fetch and
decode the index block, then stream records from each data block.  The
result pairs the records the Python generator yields with the exception, if
any, that ends the iteration. -/
def iterTableFile (file : List Nat) : List Record × Option TableErr :=
  let n := file.length
  if n < _TABLE_FOOTER_SIZE then ([], some .badSeek)
  else
    let footer := file.drop (n - _TABLE_FOOTER_SIZE)
    let m1 := readLeVarint false footer
    let footer1 := footer.drop m1.2
    let m2 := readLeVarint false footer1
    let footer2 := footer1.drop m2.2
    let i1 := readLeVarint false footer2
    let footer3 := footer2.drop i1.2
    let i2 := readLeVarint false footer3
    match i1.1, i2.1 with
    | some iOff, some iLen =>
      let magic := leNum ((file.drop (n - 8)).take 8)
      if magic ≠ _TABLE_MAGIC then ([], some .badMagic)
      else
        (match readBlock file iOff iLen with
        | .error e => ([], some e)
        | .ok indexData =>
          let ie := iterBlockEntries indexData
          match ie.2 with
          | some e => ([], some e)
          | none => dataBlocksLoop file ie.1)
    | _, _ => ([], some .typeErr)

/-!
## Log files (`_iter_log_batches` / `_iter_log_file`, leveldb.py lines 216-288)
-/

def _LOG_BLOCK_SIZE : Nat := 32768

def _LOG_FULL : Nat := 1
def _LOG_FIRST : Nat := 2
def _LOG_MIDDLE : Nat := 3
def _LOG_LAST : Nat := 4

/-- Reassembly state of `_iter_log_batches`: the `in_record` flag, the
partial `block` buffer, and the batch payloads yielded so far. -/
structure LogSt where
  inRec : Bool
  buf : List Nat
  out : List (List Nat)
deriving DecidableEq

/-- One fragment dispatch (lines 238-257): FULL yields the payload, FIRST
starts a buffer, MIDDLE/LAST extend it when `in_record`, anything else is
skipped. -/
def fragApply (st : LogSt) (blockType : Nat) (payload : List Nat) : LogSt :=
  if blockType = _LOG_FULL then { st with inRec := false, out := st.out ++ [payload] }
  else if blockType = _LOG_FIRST then { st with inRec := true, buf := payload }
  else if blockType = _LOG_MIDDLE then
    (if st.inRec then { st with buf := st.buf ++ payload } else st)
  else if blockType = _LOG_LAST then
    (if st.inRec then { inRec := false, buf := st.buf, out := st.out ++ [st.buf ++ payload] } else st)
  else st

/-- Fragment loop over one physical block (lines 232-257): while the cursor
is below `_LOG_BLOCK_SIZE - 6`, read a 7-byte header (stop when short), take
the 2-byte little-endian payload length and 1-byte type, read at most
`length` payload bytes from the same chunk, and dispatch.  Every iteration
advances the cursor by at least 7, so fuel 4682 covers a full 32 KiB block
starting from cursor 0. -/
def chunkLoopAux (chunk : List Nat) : Nat → Nat → LogSt → LogSt
  | 0, _, st => st
  | fuel + 1, p, st =>
    if p < _LOG_BLOCK_SIZE - 6 then
      let header := (chunk.drop p).take 7
      if header.length < 7 then st
      else
        let length := leNum ((chunk.drop (p + 4)).take 2)
        let blockType := chunk.getD (p + 6) 0
        let payload := (chunk.drop (p + 7)).take length
        chunkLoopAux chunk fuel (p + 7 + payload.length) (fragApply st blockType payload)
    else st

/-- Outer chunk loop of `_iter_log_batches` (line 230): read 32 KiB chunks
until an empty read; reassembly state persists across chunks.  `k` is the
chunk index; fuel `file.length + 1` dominates the number of chunks. -/
def logOuterAux (file : List Nat) : Nat → Nat → LogSt → LogSt
  | 0, _, st => st
  | fuel + 1, k, st =>
    let chunk := (file.drop (k * _LOG_BLOCK_SIZE)).take _LOG_BLOCK_SIZE
    if chunk.length = 0 then st
    else logOuterAux file fuel (k + 1) (chunkLoopAux chunk 4682 0 st)

/-- Model of `_iter_log_batches`: the list of raw batch payloads. -/
def iterLogBatches (file : List Nat) : List (List Nat) :=
  (logOuterAux file (file.length + 1) 0 ⟨false, [], []⟩).out

/-- Record loop of `_iter_log_file` (lines 269-288): for each of `count`
records read a state byte (0 Deleted, 1 Live, otherwise Unknown), a 32-bit
varint key length and the key bytes, and — unless Deleted — a varint value
length and the value bytes.  A missing state byte or a `None` varint breaks
the loop; short key or value byte reads do not. -/
def decodeRecordsLoop (base : Nat) : Nat → Nat → List Nat → List Record
  | 0, _, _ => []
  | _ + 1, _, [] => []
  | count + 1, i, stByte :: s1 =>
    let state := if stByte = 0 then KeyState.Deleted
      else if stByte = 1 then KeyState.Live else KeyState.Unknown
    let kv := readLeVarint true s1
    match kv.1 with
    | none => []
    | some keyLen =>
      let s2 := s1.drop kv.2
      let key := s2.take keyLen
      let s3 := s2.drop keyLen
      if stByte = 0 then
        ⟨key, [], base + i, state, false⟩ :: decodeRecordsLoop base count (i + 1) s3
      else
        let vv := readLeVarint true s3
        match vv.1 with
        | none => []
        | some valLen =>
          let s4 := s3.drop vv.2
          let value := s4.take valLen
          ⟨key, value, base + i, state, false⟩ :: decodeRecordsLoop base count (i + 1) (s4.drop valLen)

/-- Decode one batch payload (lines 263-288): a batch shorter than its
12-byte header yields nothing; otherwise the 8-byte base sequence and 4-byte
count prefix the records. -/
def decodeLogBatch (batch : List Nat) : List Record :=
  if batch.length < 12 then []
  else
    let base := leNum (batch.take 8)
    let count := leNum ((batch.drop 8).take 4)
    decodeRecordsLoop base count 0 (batch.drop 12)

/-- Model of `_iter_log_file`: records of every batch, in order. -/
def iterLogFile (file : List Nat) : List Record :=
  ((iterLogBatches file).map decodeLogBatch).flatten

/-!
## Directory scanner (`iter_leveldb_records`, leveldb.py lines 295-321)

The filesystem is abstracted as a list of directory entries carrying a name,
a regular-file flag, and the file bytes.
-/

/-- A directory entry: name, `is_file()` flag, file content. -/
structure DirEntry where
  name : List Char
  isFile : Bool
  content : List Nat

/-- Prefix match of the compiled pattern `[0-9]{6}\.(ldb|log|sst)` as done by
`_DATA_FILE_RE.match(f.name)`: `re.match` anchors at the start of the string
only, so trailing characters are allowed. -/
def dataFileReMatch (name : List Char) : Bool :=
  10 ≤ name.length ∧
    (name.take 6).all (fun c => '0' ≤ c ∧ c ≤ '9') ∧
    name.getD 6 ' ' = '.' ∧
    ((name.drop 7).take 3 = ['l', 'd', 'b'] ∨ (name.drop 7).take 3 = ['l', 'o', 'g'] ∨
      (name.drop 7).take 3 = ['s', 's', 't'])

/-- Index of the last dot of a name, if any. -/
def lastDotIdx (name : List Char) : Option Nat :=
  ((List.range name.length).filter (fun i => name.getD i ' ' = '.')).getLast?

/-- Model of `pathlib.PurePath.suffix`: the part of the name from its last
dot, empty when the last dot is leading or trailing. -/
def pathSuffix (name : List Char) : List Char :=
  match lastDotIdx name with
  | some i => if 0 < i ∧ i < name.length - 1 then name.drop i else []
  | none => []

/-- Model of `pathlib.PurePath.stem`: the name with `pathSuffix` removed. -/
def pathStem (name : List Char) : List Char :=
  name.take (name.length - (pathSuffix name).length)

/-- Value of a hexadecimal digit. -/
def hexDigitVal (c : Char) : Option Nat :=
  if '0' ≤ c ∧ c ≤ '9' then some (c.toNat - '0'.toNat)
  else if 'a' ≤ c ∧ c ≤ 'f' then some (c.toNat - 'a'.toNat + 10)
  else if 'A' ≤ c ∧ c ≤ 'F' then some (c.toNat - 'A'.toNat + 10)
  else none

/-- Model of `int(s, 16)`, restricted to plain hex-digit strings: `none`
models the `ValueError` raised on anything else.  (Python also accepts
signs, surrounding whitespace, a `0x` prefix and inner underscores; no stem
that `iter_leveldb_records` can pass here has one of those forms, because a
matched name's stem is either all digits or contains a dot.) -/
def intHex (s : List Char) : Option Nat :=
  if s ≠ [] ∧ s.all (fun c => (hexDigitVal c).isSome) then
    some (s.foldl (fun acc c => acc * 16 + ((hexDigitVal c).getD 0)) 0)
  else none

/-- Selection loop of `iter_leveldb_records` (lines 310-313): keep regular
files whose name matches the (unanchored) pattern, parsing the stem as a
hexadecimal file number — `int(f.stem, 16)` raises `ValueError` (modelled as
`Except.error ()`) when the stem is not a hex numeral.  Each kept entry
records (file number, lowercased suffix, content). -/
def selectFiles : List DirEntry → Except Unit (List (Nat × List Char × List Nat))
  | [] => .ok []
  | e :: rest =>
    if e.isFile ∧ dataFileReMatch e.name then
      match intHex (pathStem e.name) with
      | none => .error ()
      | some fno =>
        match selectFiles rest with
        | .error u => .error u
        | .ok l => .ok ((fno, (pathSuffix e.name).map Char.toLower, e.content) :: l)
    else selectFiles rest

/-- Stable insertion into a list sorted by file number. -/
def insertByFno (x : Nat × List Char × List Nat) :
    List (Nat × List Char × List Nat) → List (Nat × List Char × List Nat)
  | [] => [x]
  | y :: ys => if x.1 ≤ y.1 then x :: y :: ys else y :: insertByFno x ys

/-- Stable sort by file number.  Python's `list.sort` with `key=lambda x:
x[0]` is stable, and every stable sort by the same key computes the same
list, so insertion sort is an exact model. -/
def sortByFno : List (Nat × List Char × List Nat) → List (Nat × List Char × List Nat)
  | [] => []
  | x :: xs => insertByFno x (sortByFno xs)

/-- Dispatch one selected file by its lowercased suffix (lines 317-321):
`.log` to the log reader, `.ldb`/`.sst` to the table reader, anything else
contributes nothing. -/
def dispatchFile (ext : List Char) (content : List Nat) : List Record × Option TableErr :=
  if ext = ['.', 'l', 'o', 'g'] then (iterLogFile content, none)
  else if ext = ['.', 'l', 'd', 'b'] ∨ ext = ['.', 's', 's', 't'] then iterTableFile content
  else ([], none)

/-- Concatenate the record streams of the sorted files; an exception raised
inside one file ends the whole iteration (records already yielded are kept). -/
def scanDispatch : List (Nat × List Char × List Nat) → List Record × Option TableErr
  | [] => ([], none)
  | (_, ext, content) :: rest =>
    let d := dispatchFile ext content
    match d.2 with
    | some e => (d.1, some e)
    | none =>
      let t := scanDispatch rest
      (d.1 ++ t.1, t.2)

/-- Model of `iter_leveldb_records` over an abstract directory listing (the
`is_dir` check is outside this model): select data files, raising
`ValueError` (`Except.error ()`) when a matched stem is not hexadecimal,
sort by file number, and concatenate the per-file record streams. -/
def iterLevelDbRecords (dir : List DirEntry) : Except Unit (List Record × Option TableErr) :=
  match selectFiles dir with
  | .error u => .error u
  | .ok files => .ok (scanDispatch (sortByFno files))

/-!
## Specification-side Snappy failure classifier (for claim C4)

A purely syntactic scan over the element stream, written from the spec's
failure conditions (§4.2): it carries no output buffer, only the produced
output length, and reports which failure (if any) the stream contains.
-/

/-- Number of bytes a copy element appends: the length of the Python slice
`out[src_pos : src_pos + length]`, repeated up to `length` bytes when
`offset <= length`. -/
def copyAppendLen (n offset length : Nat) : Nat :=
  let a : Int := (n : Int) - (offset : Int)
  let sl := pyIndexClamp n (a + (length : Int)) - pyIndexClamp n a
  if offset ≤ length then min length (length * sl) else sl

/-- Modelled from the spec (§4.2): scan the tag-prefixed elements, tracking
only the produced length `n`; classify the first failure — element header
truncated inside its length-extension or copy-offset bytes (`shortRead`),
literal data truncated (`truncatedLiteral`), or zero copy offset
(`zeroOffset`). -/
def snappyScanAux : Nat → Nat → List Nat → Option SnappyError × Nat
  | 0, n, _ => (none, n)
  | _ + 1, n, [] => (none, n)
  | fuel + 1, n, tagByte :: rest =>
    let tag := tagByte &&& 0x03
    if tag = _SNAPPY_LITERAL then
      let sizeMarker := (tagByte &&& 0xFC) >>> 2
      let extra := if sizeMarker < 60 then 0 else sizeMarker - 59
      if rest.length < extra then (some .shortRead, n)
      else
        let length := if sizeMarker < 60 then 1 + sizeMarker else 1 + leNum (rest.take extra)
        if rest.length - extra < length then (some .truncatedLiteral, n)
        else snappyScanAux fuel (n + length) ((rest.drop extra).drop length)
    else
      let hdrLen := if tag = _SNAPPY_COPY_1BYTE then 1 else if tag = _SNAPPY_COPY_2BYTE then 2 else 4
      if rest.length < hdrLen then (some .shortRead, n)
      else
        let length :=
          if tag = _SNAPPY_COPY_1BYTE then ((tagByte &&& 0x1C) >>> 2) + 4
          else 1 + ((tagByte &&& 0xFC) >>> 2)
        let offset :=
          if tag = _SNAPPY_COPY_1BYTE then ((tagByte &&& 0xE0) <<< 3) ||| rest.headD 0
          else leNum (rest.take hdrLen)
        if offset = 0 then (some .zeroOffset, n)
        else snappyScanAux fuel (n + copyAppendLen n offset length) (rest.drop hdrLen)

/-- The element stream of a Snappy frame: everything after the length
prefix. -/
def snappyBody (s : List Nat) : List Nat :=
  s.drop (readLeVarint false s).2

/-- Failure classification and produced length of a Snappy frame's element
stream. -/
def snappyScan (s : List Nat) : Option SnappyError × Nat :=
  snappyScanAux (snappyBody s).length 0 (snappyBody s)

/-!
## Concrete inputs used by counterexamples and witnesses
-/

/-- Little-endian bytes of the table magic `0xDB4775248B80FB57`. -/
def tableMagicBytes : List Nat := [0x57, 0xFB, 0x80, 0x8B, 0x24, 0x75, 0x47, 0xDB]

/-- A complete table file with one data-block entry whose key is exactly
8 bytes: data block (19 bytes) + trailer, index block (14 bytes) + trailer,
48-byte footer. -/
def tableFileKey8 : List Nat :=
  ([0, 8, 0] ++ [1, 0, 0, 0, 0, 0, 0, 0]) ++ [0, 0, 0, 0] ++ [1, 0, 0, 0]
    ++ [0, 0, 0, 0, 0]
    ++ ([0, 1, 2, 97, 0, 19] ++ [0, 0, 0, 0] ++ [1, 0, 0, 0])
    ++ [0, 0, 0, 0, 0]
    ++ ([0, 0, 24, 14] ++ List.replicate 36 0 ++ tableMagicBytes)

/-- A complete table file with one data-block entry whose key is 3 bytes
long. -/
def tableFileKey3 : List Nat :=
  ([0, 3, 0] ++ [97, 98, 99]) ++ [0, 0, 0, 0] ++ [1, 0, 0, 0]
    ++ [0, 0, 0, 0, 0]
    ++ ([0, 1, 2, 97, 0, 14] ++ [0, 0, 0, 0] ++ [1, 0, 0, 0])
    ++ [0, 0, 0, 0, 0]
    ++ ([0, 0, 19, 14] ++ List.replicate 36 0 ++ tableMagicBytes)

/-- A complete table file with one data-block entry whose 9-byte key has
tombstone tag 0 (Deleted) and whose value is the nonempty `[122]`. -/
def tableFileDeletedValue : List Nat :=
  ([0, 9, 1] ++ [107, 0, 1, 0, 0, 0, 0, 0, 0] ++ [122]) ++ [0, 0, 0, 0] ++ [1, 0, 0, 0]
    ++ [0, 0, 0, 0, 0]
    ++ ([0, 1, 2, 97, 0, 21] ++ [0, 0, 0, 0] ++ [1, 0, 0, 0])
    ++ [0, 0, 0, 0, 0]
    ++ ([0, 0, 26, 14] ++ List.replicate 36 0 ++ tableMagicBytes)

/-- A log batch: base sequence 42, one Live record with key `foo` and value
`bar` (the spec's concrete scenario 3). -/
def logBatchFooBar : List Nat :=
  [42, 0, 0, 0, 0, 0, 0, 0] ++ [1, 0, 0, 0] ++ [1, 3, 102, 111, 111, 3, 98, 97, 114]

/-- A log batch declaring two records whose first record is Deleted with
declared key length 5 but only 2 key bytes available. -/
def logBatchShortKey : List Nat :=
  [0, 0, 0, 0, 0, 0, 0, 0] ++ [2, 0, 0, 0] ++ [0, 5, 97, 98]

/-- A log file consisting of one FULL fragment carrying a batch with base
sequence 7 and one Deleted record with key `k` (the spec's concrete
scenario 4). -/
def logFileDeleted : List Nat :=
  [0, 0, 0, 0, 15, 0, 1] ++ ([7, 0, 0, 0, 0, 0, 0, 0] ++ [1, 0, 0, 0] ++ [0, 1, 107])

/-!
# Theorems
-/

theorem readLeVarintAux_fst_none_iff (fuel : Nat) :
    ∀ (i acc : Nat) (s : List Nat),
      (readLeVarintAux fuel i acc s).1 = none ↔
        s.length < fuel ∧ ∀ b ∈ s, b &&& 0x80 ≠ 0 := by
  induction fuel with
  | zero => intro i acc s; simp [readLeVarintAux]
  | succ fuel ih =>
    intro i acc s
    cases s with
    | nil => simp [readLeVarintAux]
    | cons b rest =>
      simp only [readLeVarintAux]
      by_cases hb : b &&& 0x80 = 0
      · simp [hb]
      · simp only [if_neg hb, ih]
        constructor
        · rintro ⟨h1, h2⟩
          refine ⟨by simpa using Nat.succ_lt_succ h1, ?_⟩
          intro x hx
          rcases List.mem_cons.mp hx with rfl | hx
          · exact hb
          · exact h2 x hx
        · rintro ⟨h1, h2⟩
          exact ⟨by simpa using Nat.lt_of_succ_lt_succ h1,
            fun x hx => h2 x (List.mem_cons_of_mem b hx)⟩

/-- Claim C2 (amended): `read_varint` returns `END_OF_INPUT` exactly when the
stream runs out (every available byte having its continuation bit set) before
the byte limit is reached — in particular a partial varint with one or more
bytes consumed also returns `END_OF_INPUT`, not the partial accumulated
value; only after consuming the full `max_bytes` bytes, all with the high bit
set, is the accumulated value returned. -/
theorem c2_varint_eof_amended (isGoogle32bit : Bool) (s : List Nat) :
    (readLeVarint isGoogle32bit s).1 = none ↔
      s.length < (if isGoogle32bit then 5 else 10) ∧ ∀ b ∈ s, b &&& 0x80 ≠ 0 :=
  readLeVarintAux_fst_none_iff _ 0 0 s

/-- Claim C2 counterexample: on the one-byte stream `[0x80]` one byte is
consumed and the stream ends before a terminating byte, yet `read_varint`
returns `END_OF_INPUT` (`none`) — not the partial accumulated value `0` that
the claim requires. -/
theorem c2_counterexample :
    (readLeVarint true [0x80]).1 = none ∧ ([0x80] : List Nat).length = 1 ∧
      (readLeVarint true [0x80]).1 ≠ some 0 := by decide

theorem decodeRecordsLoop_getElem (base : Nat) :
    ∀ (c i : Nat) (s : List Nat) (j : Nat) (r : Record),
      (decodeRecordsLoop base c i s)[j]? = some r →
      r.seq = base + i + j ∧ r.fromLdb = false := by
  intro c
  induction c with
  | zero => intro i s j r h; simp [decodeRecordsLoop] at h
  | succ c ih =>
    intro i s j r h
    cases s with
    | nil => simp [decodeRecordsLoop] at h
    | cons stByte s1 =>
      simp only [decodeRecordsLoop] at h
      rcases hkv : (readLeVarint true s1).1 with _ | keyLen <;> rw [hkv] at h
      · simp at h
      · simp only [] at h
        by_cases hst : stByte = 0
        · rw [if_pos hst] at h
          match j with
          | 0 =>
            simp only [List.getElem?_cons_zero, Option.some.injEq] at h
            subst h
            simp
          | j + 1 =>
            rw [List.getElem?_cons_succ] at h
            obtain ⟨hs, hf⟩ := ih (i + 1) _ j r h
            exact ⟨by omega, hf⟩
        · rw [if_neg hst] at h
          rcases hvv : (readLeVarint true ((s1.drop (readLeVarint true s1).2).drop keyLen)).1
            with _ | valLen <;> rw [hvv] at h
          · simp at h
          · match j with
            | 0 =>
              simp only [List.getElem?_cons_zero, Option.some.injEq] at h
              subst h
              simp
            | j + 1 =>
              rw [List.getElem?_cons_succ] at h
              obtain ⟨hs, hf⟩ := ih (i + 1) _ j r h
              exact ⟨by omega, hf⟩

/-- Claim C5: the `j`-th record decoded from a log batch (0-indexed) carries
sequence number `base + j`, where `base` is the little-endian 64-bit base
sequence from the batch's 12-byte header, and log origin
(`fromLdb = false`). -/
theorem c5_log_batch_seq (batch : List Nat) (j : Nat) (r : Record)
    (h : (decodeLogBatch batch)[j]? = some r) :
    r.seq = leNum (batch.take 8) + j ∧ r.fromLdb = false := by
  unfold decodeLogBatch at h
  by_cases hb : batch.length < 12
  · rw [if_pos hb] at h; simp at h
  · rw [if_neg hb] at h
    simpa using decodeRecordsLoop_getElem (leNum (batch.take 8))
      (leNum ((batch.drop 8).take 4)) 0 (batch.drop 12) j r h

/-- Claim C5 witness at the concrete batch `logBatchFooBar` and index 0. -/
theorem c5_witness :
    (decodeLogBatch logBatchFooBar)[0]? =
      some ⟨[102, 111, 111], [98, 97, 114], 42, KeyState.Live, false⟩ ∧
    (42 : Nat) = leNum (logBatchFooBar.take 8) + 0 ∧ false = false :=
  ⟨by decide,
    by
      have := c5_log_batch_seq logBatchFooBar 0
        ⟨[102, 111, 111], [98, 97, 114], 42, KeyState.Live, false⟩ (by decide)
      simpa using this.1,
    rfl⟩

/-- Claim C7 counterexample: in the batch `logBatchShortKey` the first record
is Deleted with declared key length 5 but only 2 key bytes available — the
key read comes up short — yet the record IS emitted (with the truncated key)
rather than batch processing stopping with no record. -/
theorem c7_counterexample :
    decodeLogBatch logBatchShortKey = [⟨[97, 98], [], 0, KeyState.Deleted, false⟩] ∧
    (logBatchShortKey.drop 14).length < 5 := by decide

/-- Claim C7 (amended): decoding of the current log-batch record stops
silently (emitting nothing from the current index on) exactly when the state
byte is missing, the key-length varint returns `END_OF_INPUT`, or — for a
non-Deleted record — the value-length varint returns `END_OF_INPUT`.  A short
read of the key bytes or value bytes themselves does NOT stop the current
record: it is emitted with the truncated bytes (and the exhausted buffer ends
the batch at the next index).  No exception is raised and other batches are
unaffected. -/
theorem c7_amended (base c i : Nat) (s : List Nat) :
    decodeRecordsLoop base (c + 1) i s = [] ↔
      s = [] ∨
        ∃ stByte s1, s = stByte :: s1 ∧
          ((readLeVarint true s1).1 = none ∨
            (stByte ≠ 0 ∧ ∃ keyLen,
              (readLeVarint true s1).1 = some keyLen ∧
              (readLeVarint true ((s1.drop (readLeVarint true s1).2).drop keyLen)).1 = none)) := by
  cases s with
  | nil => simp [decodeRecordsLoop]
  | cons stByte s1 =>
    rcases hkv : (readLeVarint true s1).1 with _ | keyLen
    · have hL : decodeRecordsLoop base (c + 1) i (stByte :: s1) = [] := by
        simp [decodeRecordsLoop, hkv]
      rw [hL]
      simp only [List.cons_ne_nil, false_or, true_iff]
      exact ⟨stByte, s1, rfl, Or.inl hkv⟩
    · by_cases hst : stByte = 0
      · have hne : decodeRecordsLoop base (c + 1) i (stByte :: s1) ≠ [] := by
          simp only [decodeRecordsLoop, hkv]
          rw [if_pos hst]
          exact List.cons_ne_nil _ _
        constructor
        · intro habs
          exact absurd habs hne
        · rintro (habs | ⟨st2, s2, heq, hbad⟩)
          · exact absurd habs (List.cons_ne_nil _ _)
          · obtain ⟨rfl, rfl⟩ : stByte = st2 ∧ s1 = s2 := by
              have h1 := (List.cons.injEq stByte s1 st2 s2).mp heq
              exact ⟨h1.1, h1.2⟩
            rcases hbad with hnone | ⟨hne2, _⟩
            · rw [hkv] at hnone
              exact absurd hnone (by simp)
            · exact absurd hst hne2
      · rcases hvv : (readLeVarint true ((s1.drop (readLeVarint true s1).2).drop keyLen)).1
          with _ | valLen
        · have hL : decodeRecordsLoop base (c + 1) i (stByte :: s1) = [] := by
            simp only [decodeRecordsLoop, hkv]
            rw [if_neg hst]
            simp only [hvv]
          rw [hL]
          simp only [List.cons_ne_nil, false_or, true_iff]
          exact ⟨stByte, s1, rfl, Or.inr ⟨hst, keyLen, hkv, hvv⟩⟩
        · have hne : decodeRecordsLoop base (c + 1) i (stByte :: s1) ≠ [] := by
            simp only [decodeRecordsLoop, hkv]
            rw [if_neg hst]
            simp only [hvv]
            exact List.cons_ne_nil _ _
          constructor
          · intro habs
            exact absurd habs hne
          · rintro (habs | ⟨st2, s2, heq, hbad⟩)
            · exact absurd habs (List.cons_ne_nil _ _)
            · obtain ⟨rfl, rfl⟩ : stByte = st2 ∧ s1 = s2 := by
                have h1 := (List.cons.injEq stByte s1 st2 s2).mp heq
                exact ⟨h1.1, h1.2⟩
              rcases hbad with hnone | ⟨_, keyLen2, hk2, hv2⟩
              · rw [hkv] at hnone
                exact absurd hnone (by simp)
              · rw [hkv] at hk2
                obtain rfl : keyLen = keyLen2 := by simpa using hk2
                rw [hvv] at hv2
                exact absurd hv2 (by simp)

theorem decodeRecordsLoop_deleted_value (base : Nat) :
    ∀ (c i : Nat) (s : List Nat) (r : Record),
      r ∈ decodeRecordsLoop base c i s → r.state = KeyState.Deleted → r.value = [] := by
  intro c
  induction c with
  | zero => intro i s r h; simp [decodeRecordsLoop] at h
  | succ c ih =>
    intro i s r h hd
    cases s with
    | nil => simp [decodeRecordsLoop] at h
    | cons stByte s1 =>
      simp only [decodeRecordsLoop] at h
      rcases hkv : (readLeVarint true s1).1 with _ | keyLen <;> rw [hkv] at h
      · simp at h
      · simp only [] at h
        by_cases hst : stByte = 0
        · rw [if_pos hst] at h
          rcases List.mem_cons.mp h with heq | h
          · rw [heq]
          · exact ih (i + 1) _ r h hd
        · rw [if_neg hst] at h
          rcases hvv : (readLeVarint true ((s1.drop (readLeVarint true s1).2).drop keyLen)).1
            with _ | valLen <;> rw [hvv] at h
          · simp at h
          · simp only [] at h
            rcases List.mem_cons.mp h with heq | h
            · exfalso
              rw [heq] at hd
              by_cases h1 : stByte = 1 <;> simp [hst, h1] at hd
            · exact ih (i + 1) _ r h hd

/-- Claim C8 (amended): every record emitted from a log file with state
Deleted has the empty value.  (Table-file records do not satisfy this: the
value bytes of a block entry are emitted unchanged, even for a Deleted key —
see the counterexample.) -/
theorem c8_amended (file : List Nat) (r : Record) (h : r ∈ iterLogFile file)
    (hd : r.state = KeyState.Deleted) : r.value = [] := by
  unfold iterLogFile at h
  rw [List.mem_flatten] at h
  obtain ⟨l, hl, hr⟩ := h
  rw [List.mem_map] at hl
  obtain ⟨batch, _, rfl⟩ := hl
  unfold decodeLogBatch at hr
  by_cases hb : batch.length < 12
  · rw [if_pos hb] at hr
    simp at hr
  · rw [if_neg hb] at hr
    exact decodeRecordsLoop_deleted_value _ _ _ _ r hr hd

/-- Claim C8 witness: the Deleted record decoded from the concrete log file
`logFileDeleted` has the empty value. -/
theorem c8_witness :
    (⟨[107], [], 7, KeyState.Deleted, false⟩ : Record) ∈ iterLogFile logFileDeleted ∧
    (⟨[107], [], 7, KeyState.Deleted, false⟩ : Record).value = [] :=
  ⟨by decide, c8_amended logFileDeleted _ (by decide) rfl⟩

/-- Claim C8 counterexample: the table file `tableFileDeletedValue` emits a
record with state Deleted whose value is the nonempty `[122]`, so "state =
Deleted implies value is empty" fails for table-file records. -/
theorem c8_counterexample :
    iterTableFile tableFileDeletedValue =
      ([⟨[107, 0, 1, 0, 0, 0, 0, 0, 0], [122], 1, KeyState.Deleted, true⟩], none) ∧
    ([122] : List Nat) ≠ [] := by decide

theorem chunkLoopAux_at_end (chunk : List Nat) (fuel : Nat) (st : LogSt) :
    chunkLoopAux chunk (fuel + 1) chunk.length st = st := by
  simp only [chunkLoopAux]
  by_cases hc : chunk.length < _LOG_BLOCK_SIZE - 6
  · rw [if_pos hc]
    rw [if_pos (by simp [List.drop_length])]
  · rw [if_neg hc]

/-- Claim C10: when a log fragment's declared 2-byte payload length exceeds
the bytes remaining in the current physical block, the payload read returns
exactly the remaining bytes of that block (silently truncated, touching no
byte of any later block), the fragment is dispatched normally with that
truncated payload, no error is raised, and the loop then moves on (the rest
of the block being exhausted). -/
theorem c10_truncated_fragment (chunk : List Nat) (p : Nat) (st : LogSt) (fuel : Nat)
    (hb : chunk.length ≤ _LOG_BLOCK_SIZE)
    (hh : p + 7 ≤ chunk.length)
    (hL : chunk.length - (p + 7) < leNum ((chunk.drop (p + 4)).take 2)) :
    (chunk.drop (p + 7)).take (leNum ((chunk.drop (p + 4)).take 2)) = chunk.drop (p + 7) ∧
    chunkLoopAux chunk (fuel + 2) p st =
      fragApply st (chunk.getD (p + 6) 0) (chunk.drop (p + 7)) := by
  have hdlen : (chunk.drop (p + 7)).length = chunk.length - (p + 7) := List.length_drop _ _
  have hpay : (chunk.drop (p + 7)).take (leNum ((chunk.drop (p + 4)).take 2)) =
      chunk.drop (p + 7) := List.take_of_length_le (by omega)
  refine ⟨hpay, ?_⟩
  have hB : _LOG_BLOCK_SIZE = 32768 := rfl
  have hcond : p < _LOG_BLOCK_SIZE - 6 := by omega
  have hhdr : ¬ ((chunk.drop p).take 7).length < 7 := by
    simp only [List.length_take, List.length_drop]
    omega
  show chunkLoopAux chunk (fuel + 1 + 1) p st = _
  simp only [chunkLoopAux]
  rw [if_pos hcond, if_neg hhdr, hpay]
  have hadv : p + 7 + (chunk.drop (p + 7)).length = chunk.length := by omega
  rw [hadv]
  exact chunkLoopAux_at_end chunk fuel (fragApply st (chunk.getD (p + 6) 0) (chunk.drop (p + 7)))

/-- Claim C10 witness: a one-fragment chunk of 8 bytes whose declared payload
length 5 exceeds the single remaining byte. -/
theorem c10_witness :
    ([0, 0, 0, 0, 5, 0, 1, 65] : List Nat).length ≤ _LOG_BLOCK_SIZE ∧
    0 + 7 ≤ ([0, 0, 0, 0, 5, 0, 1, 65] : List Nat).length ∧
    ([0, 0, 0, 0, 5, 0, 1, 65] : List Nat).length - (0 + 7) <
      leNum ((([0, 0, 0, 0, 5, 0, 1, 65] : List Nat).drop (0 + 4)).take 2) ∧
    chunkLoopAux [0, 0, 0, 0, 5, 0, 1, 65] 2 0 ⟨false, [], []⟩ =
      fragApply ⟨false, [], []⟩ (([0, 0, 0, 0, 5, 0, 1, 65] : List Nat).getD (0 + 6) 0)
        (([0, 0, 0, 0, 5, 0, 1, 65] : List Nat).drop (0 + 7)) :=
  ⟨by decide, by decide, by decide,
    (c10_truncated_fragment [0, 0, 0, 0, 5, 0, 1, 65] 0 ⟨false, [], []⟩ 0
      (by decide) (by decide) (by decide)).2⟩


theorem pyIndexClamp_le (n : Nat) (i : Int) : pyIndexClamp n i ≤ n := by
  unfold pyIndexClamp
  split <;> omega

theorem cyclicTake_self (p : List Nat) : cyclicTake p p.length = p := by
  apply List.ext_getElem
  · simp [cyclicTake]
  · intro n h1 h2
    simp only [cyclicTake, List.getElem_map, List.getElem_range]
    rw [Nat.mod_eq_of_lt h2, List.getD_eq_getElem p 0 h2]

theorem cyclicTake_add (p : List Nat) (a : Nat) :
    cyclicTake p (p.length + a) = p ++ cyclicTake p a := by
  unfold cyclicTake
  rw [List.range_add, List.map_append, List.map_map]
  congr 1
  · have := cyclicTake_self p
    unfold cyclicTake at this
    exact this
  · apply List.map_congr_left
    intro x _
    simp [Nat.add_mod_left]

theorem pyRepeat_eq_cyclicTake (p : List Nat) (k : Nat) :
    pyRepeat p k = cyclicTake p (k * p.length) := by
  induction k with
  | zero => simp [pyRepeat, cyclicTake]
  | succ k ih =>
    rw [show (k + 1) * p.length = p.length + k * p.length by ring]
    rw [cyclicTake_add, ← ih]
    simp [pyRepeat, List.replicate_succ]

theorem cyclicTake_take (p : List Nat) (N m : Nat) (h : m ≤ N) :
    (cyclicTake p N).take m = cyclicTake p m := by
  unfold cyclicTake
  rw [← List.map_take, List.take_range, Nat.min_eq_left h]

/-- Claim C3: for a Snappy copy element with offset `O` and length `L`
(with `0 < O` and `O` within the output written so far), the bytes appended
are: when `O < L`, the first `L` bytes of the unbounded repetition of the
`O`-byte pattern starting at output position `len(out) - O` (run-length
semantics); when `O ≥ L`, the `L` existing bytes starting at that position,
unchanged. -/
theorem c3_snappy_copy (out : List Nat) (O L : Nat) (h1 : 0 < O) (h2 : O ≤ out.length) :
    snappyCopy out O L =
      if O < L then cyclicTake (out.drop (out.length - O)) L
      else (out.drop (out.length - O)).take L := by
  have ha : pyIndexClamp out.length ((out.length : Int) - (O : Int)) = out.length - O := by
    unfold pyIndexClamp
    split <;> omega
  have hb : pyIndexClamp out.length ((out.length : Int) - (O : Int) + (L : Int)) =
      min (out.length - O + L) out.length := by
    unfold pyIndexClamp
    split <;> omega
  have hplen : (out.drop (out.length - O)).length = O := by
    rw [List.length_drop]
    omega
  simp only [snappyCopy, pySlice]
  rw [ha, hb]
  by_cases hOL : O ≤ L
  · rw [if_pos hOL]
    have hmin : min (out.length - O + L) out.length = out.length := by omega
    rw [hmin, List.take_length]
    rw [pyRepeat_eq_cyclicTake,
      cyclicTake_take _ _ _ (by rw [hplen]; exact Nat.le_mul_of_pos_right L h1)]
    by_cases hlt : O < L
    · rw [if_pos hlt]
    · rw [if_neg hlt]
      rw [List.take_of_length_le (by omega)]
      rw [show L = (out.drop (out.length - O)).length by omega]
      exact cyclicTake_self _
  · rw [if_neg hOL, if_neg (by omega : ¬ O < L)]
    have hmin : min (out.length - O + L) out.length = out.length - O + L := by omega
    rw [hmin, List.drop_take]
    congr 1
    omega

/-- Claim C3 witness at the concrete output `[5, 6, 7]` with offset 2 and
length 5 (the overlapping, run-length case). -/
theorem c3_witness :
    (0 : Nat) < 2 ∧ 2 ≤ ([5, 6, 7] : List Nat).length ∧
    snappyCopy [5, 6, 7] 2 5 =
      (if 2 < 5 then cyclicTake (([5, 6, 7] : List Nat).drop (([5, 6, 7] : List Nat).length - 2)) 5
       else (([5, 6, 7] : List Nat).drop (([5, 6, 7] : List Nat).length - 2)).take 5) :=
  ⟨by decide, by decide, c3_snappy_copy [5, 6, 7] 2 5 (by decide) (by decide)⟩

theorem recordFromTableEntry_ok_spec (k v : List Nat) (r : Record)
    (h : recordFromTableEntry k v = Except.ok r) :
    r.key = k ∧ r.value = v ∧ (k.drop (k.length - 8)).length = 8 ∧
    r.seq = leNum (k.drop (k.length - 8)) >>> 8 ∧
    r.state = (if k.length ≤ 8 then KeyState.Unknown
      else if k.getD (k.length - 8) 0 = 0 then KeyState.Deleted else KeyState.Live) := by
  simp only [recordFromTableEntry] at h
  by_cases h8 : (k.drop (k.length - 8)).length = 8
  · rw [if_pos h8] at h
    injection h with h
    subst h
    refine ⟨rfl, rfl, h8, rfl, ?_⟩
    by_cases hk8 : k.length ≤ 8
    · simp [hk8]
    · have hgt : 8 < k.length := by omega
      by_cases hz : k.getD (k.length - 8) 0 = 0
      · simp [hk8, hgt, hz]
      · simp [hk8, hgt, hz]
  · rw [if_neg h8] at h
    exact absurd h (by simp)

theorem mem_tableRecordsFromEntries (l : List (List Nat × List Nat)) (r : Record)
    (h : r ∈ (tableRecordsFromEntries l).1) :
    ∃ k v, recordFromTableEntry k v = Except.ok r := by
  induction l with
  | nil => simp [tableRecordsFromEntries] at h
  | cons kv rest ih =>
    obtain ⟨k, v⟩ := kv
    simp only [tableRecordsFromEntries] at h
    rcases hr : recordFromTableEntry k v with e | r0 <;> rw [hr] at h
    · simp at h
    · simp only [] at h
      rcases List.mem_cons.mp h with heq | h
      · exact ⟨k, v, by rw [heq]; exact hr⟩
      · exact ih h

theorem mem_dataBlocksLoop (file : List Nat) :
    ∀ (l : List (List Nat × List Nat)) (r : Record),
      r ∈ (dataBlocksLoop file l).1 → ∃ k v, recordFromTableEntry k v = Except.ok r := by
  intro l
  induction l with
  | nil => intro r h; simp [dataBlocksLoop] at h
  | cons kv rest ih =>
    obtain ⟨ik, handleBytes⟩ := kv
    intro r h
    simp only [dataBlocksLoop] at h
    rcases h1 : (readLeVarint false handleBytes).1 with _ | bOff <;> rw [h1] at h
    · simp at h
    · rcases h2 : (readLeVarint false (handleBytes.drop (readLeVarint false handleBytes).2)).1
        with _ | bLen <;> rw [h2] at h
      · simp at h
      · simp only [] at h
        rcases h3 : readBlock file bOff bLen with e | blockData <;> rw [h3] at h
        · simp at h
        · simp only [] at h
          rcases h4 : (iterBlockEntries blockData).2 with _ | e <;> rw [h4] at h
          · simp only [] at h
            rcases h5 : (tableRecordsFromEntries (iterBlockEntries blockData).1).2
              with _ | e <;> rw [h5] at h
            · simp only [] at h
              rcases List.mem_append.mp h with hl | hr2
              · exact mem_tableRecordsFromEntries _ r hl
              · exact ih r hr2
            · exact mem_tableRecordsFromEntries _ r h
          · simp at h

theorem mem_iterTableFile (file : List Nat) (r : Record)
    (h : r ∈ (iterTableFile file).1) :
    ∃ k v, recordFromTableEntry k v = Except.ok r := by
  simp only [iterTableFile] at h
  by_cases hn : file.length < _TABLE_FOOTER_SIZE
  · rw [if_pos hn] at h
    simp at h
  · rw [if_neg hn] at h
    set footer := file.drop (file.length - _TABLE_FOOTER_SIZE) with hfo
    set footer1 := footer.drop (readLeVarint false footer).2 with hf1
    set footer2 := footer1.drop (readLeVarint false footer1).2 with hf2
    set footer3 := footer2.drop (readLeVarint false footer2).2 with hf3
    rcases h1 : (readLeVarint false footer2).1 with _ | iOff <;> rw [h1] at h
    · simp at h
    · rcases h2 : (readLeVarint false footer3).1 with _ | iLen <;> rw [h2] at h
      · simp at h
      · simp only [] at h
        by_cases hm : leNum ((file.drop (file.length - 8)).take 8) ≠ _TABLE_MAGIC
        · rw [if_pos hm] at h
          simp at h
        · rw [if_neg hm] at h
          rcases h3 : readBlock file iOff iLen with e | indexData <;> rw [h3] at h
          · simp at h
          · simp only [] at h
            rcases h4 : (iterBlockEntries indexData).2 with _ | e <;> rw [h4] at h
            · exact mem_dataBlocksLoop file _ r h
            · simp at h


/-- Claim C1 (amended): every record emitted from a table file whose key is
longer than 8 bytes has `seq = uint64_le(key[-8:]) >> 8` and state Deleted
exactly when `key[len(key)-8] = 0`, Live otherwise — never Unknown.  (The
seq formula holds for keys of length exactly 8 as well, but such records get
state Unknown, so the original "length at least 8" bound is wrong for the
state part.) -/
theorem c1_amended (file : List Nat) (r : Record)
    (hr : r ∈ (iterTableFile file).1) (h8 : 8 ≤ r.key.length) :
    r.seq = leNum (r.key.drop (r.key.length - 8)) >>> 8 ∧
    (8 < r.key.length →
      r.state = (if r.key.getD (r.key.length - 8) 0 = 0 then KeyState.Deleted
        else KeyState.Live) ∧
      r.state ≠ KeyState.Unknown) := by
  obtain ⟨k, v, hok⟩ := mem_iterTableFile file r hr
  obtain ⟨hk, hv, h8len, hseq, hstate⟩ := recordFromTableEntry_ok_spec k v r hok
  subst hk
  refine ⟨hseq, ?_⟩
  intro hgt
  have hk8 : ¬ r.key.length ≤ 8 := by omega
  rw [hstate, if_neg hk8]
  refine ⟨rfl, ?_⟩
  by_cases hz : r.key.getD (r.key.length - 8) 0 = 0
  · rw [if_pos hz]
    simp
  · rw [if_neg hz]
    simp

/-- Claim C1 counterexample: the table file `tableFileKey8` emits a record
whose key has length exactly 8 — within the claim's "at least 8 bytes" — yet
its state is Unknown, not Deleted or Live. -/
theorem c1_counterexample :
    (iterTableFile tableFileKey8).1 = [⟨[1, 0, 0, 0, 0, 0, 0, 0], [], 0, KeyState.Unknown, true⟩] ∧
    8 ≤ ([1, 0, 0, 0, 0, 0, 0, 0] : List Nat).length ∧
    KeyState.Unknown ≠ KeyState.Deleted ∧ KeyState.Unknown ≠ KeyState.Live := by decide

/-- Claim C1 witness: the Deleted record of `tableFileDeletedValue` (9-byte
key with tombstone tag 0). -/
theorem c1_witness :
    (⟨[107, 0, 1, 0, 0, 0, 0, 0, 0], [122], 1, KeyState.Deleted, true⟩ : Record) ∈
      (iterTableFile tableFileDeletedValue).1 ∧
    8 ≤ (⟨[107, 0, 1, 0, 0, 0, 0, 0, 0], [122], 1, KeyState.Deleted, true⟩ : Record).key.length ∧
    ((⟨[107, 0, 1, 0, 0, 0, 0, 0, 0], [122], 1, KeyState.Deleted, true⟩ : Record).seq =
      leNum ((⟨[107, 0, 1, 0, 0, 0, 0, 0, 0], [122], 1, KeyState.Deleted, true⟩ : Record).key.drop
        ((⟨[107, 0, 1, 0, 0, 0, 0, 0, 0], [122], 1, KeyState.Deleted, true⟩ : Record).key.length - 8)) >>> 8) :=
  ⟨by decide, by decide,
    (c1_amended tableFileDeletedValue _ (by decide) (by decide)).1⟩

/-- Claim C9 (amended): a table-file record is emitted for an entry with
`len(key) ≤ 8` only when the key is exactly 8 bytes long, in which case its
state is Unknown and `seq = uint64_le(key) >> 8`; an entry whose key is
shorter than 8 bytes instead raises `struct.error` (`struct.unpack("<Q", ...)`
on fewer than 8 bytes), emitting no record and aborting the file. -/
theorem c9_amended (file : List Nat) (r : Record)
    (hr : r ∈ (iterTableFile file).1) (h8 : r.key.length ≤ 8) :
    r.key.length = 8 ∧ r.state = KeyState.Unknown ∧ r.seq = leNum r.key >>> 8 := by
  obtain ⟨k, v, hok⟩ := mem_iterTableFile file r hr
  obtain ⟨hk, hv, h8len, hseq, hstate⟩ := recordFromTableEntry_ok_spec k v r hok
  subst hk
  rw [List.length_drop] at h8len
  have hlen : r.key.length = 8 := by omega
  have hdrop : r.key.drop (r.key.length - 8) = r.key := by
    rw [show r.key.length - 8 = 0 by omega, List.drop_zero]
  refine ⟨hlen, ?_, ?_⟩
  · rw [hstate, if_pos h8]
  · rw [hseq, hdrop]

/-- Claim C9 counterexample: the table file `tableFileKey3`, whose single
entry has a 3-byte key, emits no record at all and fails with `struct.error`
— the claim instead requires a record with state Unknown. -/
theorem c9_counterexample :
    iterTableFile tableFileKey3 = ([], some TableErr.structError) := by decide

/-- Claim C9 witness: the Unknown record of `tableFileKey8` (key of length
exactly 8). -/
theorem c9_witness :
    (⟨[1, 0, 0, 0, 0, 0, 0, 0], [], 0, KeyState.Unknown, true⟩ : Record) ∈
      (iterTableFile tableFileKey8).1 ∧
    (⟨[1, 0, 0, 0, 0, 0, 0, 0], [], 0, KeyState.Unknown, true⟩ : Record).key.length ≤ 8 ∧
    ((⟨[1, 0, 0, 0, 0, 0, 0, 0], [], 0, KeyState.Unknown, true⟩ : Record).key.length = 8 ∧
      (⟨[1, 0, 0, 0, 0, 0, 0, 0], [], 0, KeyState.Unknown, true⟩ : Record).state = KeyState.Unknown ∧
      (⟨[1, 0, 0, 0, 0, 0, 0, 0], [], 0, KeyState.Unknown, true⟩ : Record).seq =
        leNum (⟨[1, 0, 0, 0, 0, 0, 0, 0], [], 0, KeyState.Unknown, true⟩ : Record).key >>> 8) :=
  ⟨by decide, by decide, c9_amended tableFileKey8 _ (by decide) (by decide)⟩

/-- Claim C6 counterexample: the directory entry named `123456.log.old` has
trailing characters after the extension, which the claim says is ignored
without error; but the unanchored `re.match` selects it and
`int("123456.log", 16)` then raises `ValueError`, aborting the scan. -/
theorem c6_counterexample :
    iterLevelDbRecords [⟨"123456.log.old".toList, true, []⟩] = Except.error () := by decide

/-- Claim C6 (amended): the scanner selects regular files whose name merely
STARTS with six digits, a dot and `ldb`/`log`/`sst` (unanchored `re.match`);
entries that do not match this prefix are ignored without error; a matching
name whose stem does not parse as hexadecimal (for example `123456.log.old`,
whose stem `123456.log` contains a dot) raises `ValueError`; a selected file
whose lowercased suffix is not exactly `.ldb`/`.log`/`.sst` (for example
`123456.ldbx`) is dispatched to no reader and contributes no records. -/
theorem c6_amended :
    (∀ (e : DirEntry) (d1 d2 : List DirEntry), ¬(e.isFile ∧ dataFileReMatch e.name) →
      selectFiles (d1 ++ e :: d2) = selectFiles (d1 ++ d2)) ∧
    (∀ (e : DirEntry) (d : List DirEntry), e.isFile → dataFileReMatch e.name →
      intHex (pathStem e.name) = none → selectFiles (e :: d) = Except.error ()) ∧
    (∀ (ext : List Char) (content : List Nat),
      ext ≠ ['.', 'l', 'o', 'g'] → ext ≠ ['.', 'l', 'd', 'b'] → ext ≠ ['.', 's', 's', 't'] →
      dispatchFile ext content = ([], none)) := by
  refine ⟨?_, ?_, ?_⟩
  · intro e d1 d2 hnm
    induction d1 with
    | nil =>
      simp only [List.nil_append, selectFiles]
      rw [if_neg hnm]
    | cons x d1 ih =>
      simp only [List.cons_append, selectFiles, List.append_eq]
      by_cases hx : x.isFile ∧ dataFileReMatch x.name
      · rw [if_pos hx, if_pos hx, ih]
      · rw [if_neg hx, if_neg hx]
        exact ih
  · intro e d hf hm hhex
    simp only [selectFiles]
    rw [if_pos ⟨hf, hm⟩, hhex]
  · intro ext content h1 h2 h3
    simp only [dispatchFile]
    rw [if_neg h1, if_neg (by simp [h2, h3])]

/-- Claim C6 witness: instantiating the three amended cases — `LOCK` is
ignored, `123456.log.old` raises, `.ldbx` contributes nothing. -/
theorem c6_witness :
    selectFiles [⟨"LOCK".toList, true, []⟩] = selectFiles [] ∧
    selectFiles [⟨"123456.log.old".toList, true, [1]⟩] = Except.error () ∧
    dispatchFile ".ldbx".toList [1, 2, 3] = ([], none) :=
  ⟨by
      have := c6_amended.1 ⟨"LOCK".toList, true, []⟩ [] [] (by decide)
      simpa using this,
    c6_amended.2.1 ⟨"123456.log.old".toList, true, [1]⟩ [] (by decide) (by decide) (by decide),
    c6_amended.2.2 ".ldbx".toList [1, 2, 3] (by decide) (by decide) (by decide)⟩

theorem pySlice_length (l : List Nat) (a b : Int) :
    (pySlice l a b).length = pyIndexClamp l.length b - pyIndexClamp l.length a := by
  unfold pySlice
  rw [List.length_drop, List.length_take]
  have := pyIndexClamp_le l.length b
  omega

theorem pyRepeat_length (l : List Nat) (k : Nat) : (pyRepeat l k).length = k * l.length := by
  simp [pyRepeat, List.length_flatten]

theorem snappyCopy_length (out : List Nat) (O L : Nat) :
    (snappyCopy out O L).length = copyAppendLen out.length O L := by
  simp only [snappyCopy, copyAppendLen]
  by_cases h : O ≤ L
  · rw [if_pos h, if_pos h, List.length_take, pyRepeat_length, pySlice_length]
  · rw [if_neg h, if_neg h, pySlice_length]

theorem snappyLoop_matches_scan : ∀ (fuel : Nat) (s out : List Nat),
    (match snappyScanAux fuel out.length s with
      | (some e, _) => snappyLoopAux fuel out s = Except.error e
      | (none, L) => ∃ r, snappyLoopAux fuel out s = Except.ok r ∧ r.length = L) := by
  intro fuel
  induction fuel with
  | zero =>
    intro s out
    exact ⟨out, rfl, rfl⟩
  | succ fuel ih =>
    intro s out
    cases s with
    | nil =>
      exact ⟨out, rfl, rfl⟩
    | cons tagByte rest =>
      simp only [snappyScanAux, snappyLoopAux]
      by_cases htag : tagByte &&& 0x03 = _SNAPPY_LITERAL
      · rw [if_pos htag, if_pos htag]
        generalize hE : (if (tagByte &&& 0xFC) >>> 2 < 60 then 0
          else ((tagByte &&& 0xFC) >>> 2) - 59) = extra
        by_cases hex : rest.length < extra
        · rw [if_pos hex, if_pos hex]
        · rw [if_neg hex, if_neg hex]
          generalize hL : (if (tagByte &&& 0xFC) >>> 2 < 60 then 1 + ((tagByte &&& 0xFC) >>> 2)
            else 1 + leNum (rest.take extra)) = length
          rw [List.length_drop]
          by_cases htr : rest.length - extra < length
          · rw [if_pos htr, if_pos htr]
          · rw [if_neg htr, if_neg htr]
            have hOutLen : (out ++ (rest.drop extra).take length).length = out.length + length := by
              rw [List.length_append, List.length_take, List.length_drop]
              omega
            have ih2 := ih ((rest.drop extra).drop length) (out ++ (rest.drop extra).take length)
            rw [hOutLen] at ih2
            exact ih2
      · rw [if_neg htag, if_neg htag]
        generalize hH : (if tagByte &&& 0x03 = _SNAPPY_COPY_1BYTE then 1
          else if tagByte &&& 0x03 = _SNAPPY_COPY_2BYTE then 2 else 4) = hdrLen
        by_cases hhl : rest.length < hdrLen
        · rw [if_pos hhl, if_pos hhl]
        · rw [if_neg hhl, if_neg hhl]
          generalize hLn : (if tagByte &&& 0x03 = _SNAPPY_COPY_1BYTE then ((tagByte &&& 0x1C) >>> 2) + 4
            else 1 + ((tagByte &&& 0xFC) >>> 2)) = length
          generalize hOf : (if tagByte &&& 0x03 = _SNAPPY_COPY_1BYTE then ((tagByte &&& 0xE0) <<< 3) ||| rest.headD 0
            else leNum (rest.take hdrLen)) = offset
          by_cases hoz : offset = 0
          · rw [if_pos hoz, if_pos hoz]
          · rw [if_neg hoz, if_neg hoz]
            have hOutLen : (out ++ snappyCopy out offset length).length =
                out.length + copyAppendLen out.length offset length := by
              rw [List.length_append, snappyCopy_length]
            have ih2 := ih (rest.drop hdrLen) (out ++ snappyCopy out offset length)
            rw [hOutLen] at ih2
            exact ih2

/-- Claim C4 (amended): the Snappy decompressor fails exactly as classified
by the syntactic scan `snappyScan`: truncated literal data fails with the
`MalformedSnappy` `ValueError` (`truncatedLiteral`); input ending inside a
literal's length-extension bytes or inside a copy element's header fails
with an uncaught `IndexError`/`struct.error` short read — not
`MalformedSnappy`; a zero copy offset fails with `MalformedSnappy`
(`zeroOffset`); and when the scan succeeds the result is an output buffer of
the scanned length if it equals the declared varint prefix, and
`LengthMismatch` otherwise (also when the prefix itself is missing).  Every
other input yields an output buffer without error. -/
theorem c4_amended (s : List Nat) :
    (∀ e, (snappyScan s).1 = some e → snappyDecompress s = Except.error e) ∧
    ((snappyScan s).1 = none → (readLeVarint false s).1 = some (snappyScan s).2 →
      ∃ r, snappyDecompress s = Except.ok r ∧ r.length = (snappyScan s).2) ∧
    ((snappyScan s).1 = none → (readLeVarint false s).1 ≠ some (snappyScan s).2 →
      snappyDecompress s = Except.error SnappyError.lengthMismatch) := by
  unfold snappyScan
  have hm := snappyLoop_matches_scan (snappyBody s).length (snappyBody s) []
  simp only [List.length_nil] at hm
  rcases hscan : snappyScanAux (snappyBody s).length 0 (snappyBody s) with ⟨oe, L⟩
  rw [hscan] at hm
  cases oe with
  | some e0 =>
    simp only [] at hm
    refine ⟨?_, ?_, ?_⟩
    · intro e he
      simp only [Option.some.injEq] at he
      subst he
      simp only [snappyDecompress]
      rw [show s.drop (readLeVarint false s).2 = snappyBody s from rfl, hm]
    · intro hnone _
      simp at hnone
    · intro hnone _
      simp at hnone
  | none =>
    simp only [] at hm
    obtain ⟨r, hok, hlen⟩ := hm
    refine ⟨?_, ?_, ?_⟩
    · intro e he
      simp at he
    · intro _ hv
      refine ⟨r, ?_, hlen⟩
      simp only [snappyDecompress]
      rw [show s.drop (readLeVarint false s).2 = snappyBody s from rfl, hok]
      simp only []
      rw [if_pos (by rw [hlen]; exact hv)]
    · intro _ hv
      simp only [snappyDecompress]
      rw [show s.drop (readLeVarint false s).2 = snappyBody s from rfl, hok]
      simp only []
      rw [if_neg (by rw [hlen]; exact hv)]

/-- Claim C4 counterexample: the input `[0, 240]` (declared length 0, then a
literal tag with size marker 60 and no length byte) matches none of the
claim's failure conditions — it does not end inside literal data or a copy
header, has no zero offset, and its produced length 0 equals the declared 0
— yet the code fails (with an `IndexError` short read); and `[0, 1]`, which
ends inside a copy element's header, fails with that same uncaught
`IndexError` rather than the claimed `MalformedSnappy` `ValueError`. -/
theorem c4_counterexample :
    snappyDecompress [0, 240] = Except.error SnappyError.shortRead ∧
    snappyDecompress [0, 1] = Except.error SnappyError.shortRead := by decide

/-- Claim C4 witness: concrete instances of the three amended cases —
success with matching length, declared/produced mismatch, truncated literal
data. -/
theorem c4_witness :
    (∃ r, snappyDecompress [2, 4, 97, 98] = Except.ok r ∧
      r.length = (snappyScan [2, 4, 97, 98]).2) ∧
    snappyDecompress [3, 4, 97, 98] = Except.error SnappyError.lengthMismatch ∧
    snappyDecompress [2, 4, 97] = Except.error SnappyError.truncatedLiteral :=
  ⟨(c4_amended [2, 4, 97, 98]).2.1 (by decide) (by decide),
   (c4_amended [3, 4, 97, 98]).2.2 (by decide) (by decide),
   (c4_amended [2, 4, 97]).1 SnappyError.truncatedLiteral (by decide)⟩
